import Mathlib

/-!
Shallow embedding, in Lean 4, of the Go backend of the `react-mng2` user /
role / permission administration system (Gin + GORM over SQLite), together
with proofs about its service and controller layers.

Conventions used throughout:
* Go slices become `List`, `uint` ids become `Nat`, Go `int` fields that the
  code compares become `Int`.
* The GORM database handle becomes an explicit record `DBState` holding the
  four tables (`users`, `roles`, `permissions` and the `role_permissions`
  many-to-many join table); every service function threads it explicitly.
* `created_at` / `updated_at` timestamps are not modelled: no property below
  mentions them.
* External-library primitives that are not part of the repository (bcrypt,
  JWT signing) are modelled from the specification; each such definition
  carries a doc comment starting with `Modelled from the spec:`.
-/

namespace ReactMng

/-- The `Permission` record of `backend/models/models.go`: id, name, unique
code, self-referential `parent_code` (string key, not a foreign id), route
path, type (1 menu / 2 function / 3 button), sort order and description. -/
structure Permission where
  id : Nat
  name : String
  code : String
  parentCode : String
  path : String
  ty : Int
  sortv : Int
  description : String
deriving DecidableEq, Repr

/-- The comparison closure passed to `sort.Slice` in `GetPermissionTrees`
(`permission_service.go`): strictly less when the types are equal and the
sort order is smaller, or when the type is smaller. -/
def permLess (a b : Permission) : Bool :=
  if a.ty = b.ty then decide (a.sortv < b.sortv) else decide (a.ty < b.ty)

/-- Insert into a list already sorted by `permLess`, keeping every element
that is strictly less than `a` in front. Together with `sortPerms` this is a
sort by the same comparator `sort.Slice` uses in `GetPermissionTrees`. -/
def insertPerm (a : Permission) : List Permission → List Permission
  | [] => [a]
  | b :: bs => if permLess b a then b :: insertPerm a bs else a :: b :: bs

/-- Sorting by the `sort.Slice` comparator of `GetPermissionTrees`. -/
def sortPerms : List Permission → List Permission
  | [] => []
  | a :: as => insertPerm a (sortPerms as)

/-- A node of the permission tree (`services.PermissionTree`): the permission
fields plus a `children` slice and the `has_children` flag. -/
inductive PermissionTree where
  | node (id : Nat) (name code parentCode path : String) (ty sortv : Int)
      (description : String) (children : List PermissionTree)
      (hasChildren : Bool)

def PermissionTree.id : PermissionTree → Nat
  | .node i _ _ _ _ _ _ _ _ _ => i

def PermissionTree.code : PermissionTree → String
  | .node _ _ c _ _ _ _ _ _ _ => c

def PermissionTree.parentCode : PermissionTree → String
  | .node _ _ _ pc _ _ _ _ _ _ => pc

def PermissionTree.ty : PermissionTree → Int
  | .node _ _ _ _ _ t _ _ _ _ => t

def PermissionTree.sortv : PermissionTree → Int
  | .node _ _ _ _ _ _ s _ _ _ => s

def PermissionTree.children : PermissionTree → List PermissionTree
  | .node _ _ _ _ _ _ _ _ cs _ => cs

def PermissionTree.hasChildren : PermissionTree → Bool
  | .node _ _ _ _ _ _ _ _ _ h => h

/-- The rows that `GetPermissionTrees` appends to the `Children` slice of the
node with code `c`: in the parent-linking loop a row whose `ParentCode` is
non-empty is appended to `treeMap[row.ParentCode]` when that map entry
exists.  Since `code` carries a unique index, the tree-map entry for code `c`
is the node of the unique row with that code, and its children are exactly
the rows whose non-empty `parent_code` equals `c`, in input order. -/
def childPerms (ps : List Permission) (c : String) : List Permission :=
  ps.filter fun q => !(q.parentCode == "") && q.parentCode == c

/-- The rows that the linking loop of `GetPermissionTrees` appends to the
`roots` slice: exactly the rows whose `parent_code` is the empty string.  A
row with a non-empty `parent_code` that matches no code falls into neither
branch of the loop and is attached nowhere. -/
def rootPerms (ps : List Permission) : List Permission :=
  ps.filter fun p => p.parentCode == ""

/-- The node `GetPermissionTrees` builds for the row `p`, with the pointer
graph unfolded into a tree.  `sortChildren` in the Go code sorts each
`Children` slice with the same comparator after linking; here each child
slice is sorted before the recursive build, which yields the same node
because the comparator only reads fields the build preserves.  The `fuel`
argument bounds the unfolding depth; the part of the pointer graph reachable
from the roots is acyclic (each row has at most one parent row), so
`fuel = ps.length` never truncates a reachable subtree. -/
def buildNode (ps : List Permission) : Nat → Permission → PermissionTree
  | 0, p =>
      .node p.id p.name p.code p.parentCode p.path p.ty p.sortv p.description
        [] (!(childPerms ps p.code).isEmpty)
  | fuel + 1, p =>
      .node p.id p.name p.code p.parentCode p.path p.ty p.sortv p.description
        ((sortPerms (childPerms ps p.code)).map (buildNode ps fuel))
        (!(childPerms ps p.code).isEmpty)

/-- `GetPermissionTrees` of `permission_service.go`, applied to the flat row
list `ps` that `GetAllPermissions` read from the database: build all nodes,
link children to parents by `parent_code` string match, collect the rows
with empty `parent_code` as roots, sort the root slice and every child slice
by (type, sort). -/
def GetPermissionTrees (ps : List Permission) : List PermissionTree :=
  (sortPerms (rootPerms ps)).map (buildNode ps ps.length)

/-- Non-strict (type, sort) order on tree nodes: what "ordered by type
ascending, then sort ascending" means for adjacent nodes. -/
def nodeLe (t u : PermissionTree) : Bool :=
  decide (t.ty < u.ty) || (decide (t.ty = u.ty) && decide (t.sortv ≤ u.sortv))

/-- Adjacent-pair (type, sort) sortedness of a slice of nodes. -/
def nodesOrdered : List PermissionTree → Bool
  | [] => true
  | [_] => true
  | a :: b :: rest => nodeLe a b && nodesOrdered (b :: rest)

mutual

/-- Every `Children` slice in the tree is ordered by (type, sort). -/
def treeSorted : PermissionTree → Bool
  | .node _ _ _ _ _ _ _ _ cs _ => nodesOrdered cs && forestSortedAux cs

def forestSortedAux : List PermissionTree → Bool
  | [] => true
  | t :: ts => treeSorted t && forestSortedAux ts

end

mutual

/-- Whether a node with code `c` occurs anywhere in the tree. -/
def treeHasCode (c : String) : PermissionTree → Bool
  | .node _ _ code _ _ _ _ _ cs _ => code == c || forestHasCode c cs

def forestHasCode (c : String) : List PermissionTree → Bool
  | [] => false
  | t :: ts => treeHasCode c t || forestHasCode c ts

end

/-- The order `GetAllPermissions` requests from the database:
`ORDER BY type ASC, sort ASC, id ASC`. -/
def dbOrder (a b : Permission) : Prop :=
  a.ty < b.ty ∨ (a.ty = b.ty ∧ (a.sortv < b.sortv ∨ (a.sortv = b.sortv ∧ a.id ≤ b.id)))

instance : DecidablePred fun p : Permission × Permission => dbOrder p.1 p.2 := by
  intro p; unfold dbOrder; infer_instance

instance (a b : Permission) : Decidable (dbOrder a b) := by
  unfold dbOrder; infer_instance

/-- The `User` record of `backend/models/models.go` (timestamps omitted):
id, unique username, password (stored as a bcrypt hash), realname, email,
status (1 normal / 0 disabled) and the optional role foreign key. -/
structure User where
  id : Nat
  username : String
  password : String
  realname : String
  email : String
  status : Int
  roleId : Option Nat
deriving DecidableEq, Repr

/-- The `Role` record of `backend/models/models.go` (timestamps omitted):
id, name, unique code and description. -/
structure Role where
  id : Nat
  name : String
  code : String
  description : String
deriving DecidableEq, Repr

/-- The persistent state behind the package-level GORM handle `models.DB`:
the three entity tables and the `role_permissions` many-to-many join table,
whose rows are (role id, permission id) pairs. -/
structure DBState where
  users : List User
  roles : List Role
  permissions : List Permission
  rolePermissions : List (Nat × Nat)
deriving DecidableEq, Repr

/-- Modelled from the spec: `bcrypt.GenerateFromPassword` of the external
`golang.org/x/crypto/bcrypt` library ("password (bcrypt hash)").  The hash is
abstracted as a deterministic injective tagging of the plaintext; salting is
not modelled.  What the development verifies about passwords is the
repository's dataflow, not the cryptography. -/
def bcryptGenerateFromPassword (password : String) : String :=
  "$2a$10$" ++ password

/-- Modelled from the spec: `bcrypt.CompareHashAndPassword`, which succeeds
exactly when the stored hash is the hash of the supplied plaintext. -/
def bcryptCompareHashAndPassword (hash password : String) : Bool :=
  hash == bcryptGenerateFromPassword password

/-- Modelled from the spec: `utils.GenerateToken` (the JWT helper is not
among the provided sources).  Per the spec it issues an HMAC-signed token
containing the user id and username; it is abstracted as an injective
encoding of that pair, and signing is modelled as never failing. -/
def GenerateToken (id : Nat) (username : String) : String :=
  "jwt." ++ toString id ++ "." ++ username

/-- Two's-complement wrap-around of Go's 64-bit `int`: the result of every
Go `int` operation, reduced into `[-2^63, 2^63)`.  The literals are `2^64`
and `2^63`. -/
def wrapInt64 (n : Int) : Int :=
  if n % 18446744073709551616 < 9223372036854775808 then n % 18446744073709551616
  else n % 18446744073709551616 - 18446744073709551616

/-- `UserService.GetUserList` / `RoleService.GetRoleList` pagination:
`offset := (page - 1) * pageSize` in wrapping 64-bit Go `int` arithmetic,
then GORM `Offset(offset).Limit(pageSize)`.  In GORM a negative offset or
limit cancels the clause; a non-negative one emits `OFFSET` / `LIMIT`. -/
def paginate {α : Type} (rows : List α) (page pageSize : Int) : List α :=
  let offset := wrapInt64 (wrapInt64 (page - 1) * pageSize)
  let afterOffset := if 0 ≤ offset then rows.drop offset.toNat else rows
  if 0 ≤ pageSize then afterOffset.take pageSize.toNat else afterOffset

/-- `UserService.GetUserList` (`user_service.go`): count all users, then
select a page; returns the page and the total row count. -/
def GetUserList (page pageSize : Int) (db : DBState) : List User × Nat :=
  (paginate db.users page pageSize, db.users.length)

/-- `RoleService.GetRoleList` (`role_service.go`): count all roles, then
select a page; returns the page and the total row count. -/
def GetRoleList (page pageSize : Int) (db : DBState) : List Role × Nat :=
  (paginate db.roles page pageSize, db.roles.length)

/-- `UserService.CreateUser` (`user_service.go`): reject when a user with the
same username already exists, otherwise hash the password with bcrypt and
insert the row.  The result pairs the Go error with the database state after
the call. -/
def CreateUser (user : User) (db : DBState) : Except String Unit × DBState :=
  if db.users.any (fun u => u.username == user.username) then
    (.error "用户名已存在", db)
  else
    (.ok (),
      { db with
          users := db.users ++ [{ user with password := bcryptGenerateFromPassword user.password }] })

/-- A value of the Go partial-update map `map[string]interface{}`. -/
inductive FieldValue where
  | str (s : String)
  | int (n : Int)
deriving DecidableEq, Repr

/-- One column assignment of GORM `Updates` on a user row. -/
def applyUserField (u : User) (kv : String × FieldValue) : User :=
  match kv with
  | ("username", .str s) => { u with username := s }
  | ("realname", .str s) => { u with realname := s }
  | ("email", .str s) => { u with email := s }
  | ("password", .str s) => { u with password := s }
  | ("status", .int n) => { u with status := n }
  | _ => u

/-- GORM `Updates` applied to one user row with a column map: each known
column key sets the corresponding field. -/
def applyUserUpdates (u : User) (updates : List (String × FieldValue)) : User :=
  updates.foldl applyUserField u

/-- `UserService.UpdateUser` (`user_service.go`): when the update map holds a
non-empty string under `"password"`, replace it by its bcrypt hash; then run
GORM `Updates` on the rows with the given id. -/
def UpdateUser (id : Nat) (updates : List (String × FieldValue)) (db : DBState) : DBState :=
  let updates' :=
    match updates.lookup "password" with
    | some (.str p) =>
        if p = "" then updates
        else
          updates.map fun kv =>
            if kv.1 == "password" then ("password", FieldValue.str (bcryptGenerateFromPassword p))
            else kv
    | _ => updates
  { db with
      users := db.users.map fun u => if u.id == id then applyUserUpdates u updates' else u }

/-- `UserService.DeleteUser`: GORM hard delete of the user row by id. -/
def DeleteUser (id : Nat) (db : DBState) : DBState :=
  { db with users := db.users.filter fun u => u.id != id }

/-- `UserService.VerifyPassword`: bcrypt comparison of the stored hash with
the supplied plaintext. -/
def VerifyPassword (u : User) (password : String) : Bool :=
  bcryptCompareHashAndPassword u.password password

/-- One column assignment of GORM `Updates` on a role row. -/
def applyRoleField (r : Role) (kv : String × FieldValue) : Role :=
  match kv with
  | ("name", .str s) => { r with name := s }
  | ("code", .str s) => { r with code := s }
  | ("description", .str s) => { r with description := s }
  | _ => r

/-- GORM `Updates` applied to one role row with a column map. -/
def applyRoleUpdates (r : Role) (updates : List (String × FieldValue)) : Role :=
  updates.foldl applyRoleField r

/-- `RoleService.UpdateRole` (`role_service.go`): GORM `Updates` on the role
rows with the given id. -/
def UpdateRole (id : Nat) (updates : List (String × FieldValue)) (db : DBState) : DBState :=
  { db with
      roles := db.roles.map fun r => if r.id == id then applyRoleUpdates r updates else r }

/-- `RoleService.DeleteRole` (`role_service.go`): `models.DB.Delete(&Role{}, id)`.
`Role` has no `DeletedAt` field and the call passes no association selector,
so GORM issues a hard `DELETE FROM roles WHERE id = ?` and touches neither
the `role_permissions` join table nor any other table. -/
def DeleteRole (id : Nat) (db : DBState) : DBState :=
  { db with roles := db.roles.filter fun r => r.id != id }

/-- `PermissionService.DeletePermission` (`permission_service.go`): inside a
transaction, look the permission up by id (rolling back when it is absent),
clear its `role_permissions` association rows, delete the permission row and
commit.  The result pairs the Go error with the database state after the
call; every rollback path leaves the state unchanged. -/
def DeletePermission (id : Nat) (db : DBState) : Except String Unit × DBState :=
  match db.permissions.find? (fun p => p.id == id) with
  | none => (.error "record not found", db)
  | some _ =>
      (.ok (),
        { db with
            rolePermissions := db.rolePermissions.filter fun rp => rp.2 != id,
            permissions := db.permissions.filter fun p => p.id != id })

/-- The body of a login request after Gin binding (`AuthController.Login`,
both fields carry `binding:"required"`). -/
structure LoginRequest where
  username : String
  password : String
deriving DecidableEq, Repr

/-- The response of `AuthController.Login`: either the success envelope
(code 200) carrying the token and the user's id / username / realname /
email, or the error envelope (code 500) carrying only a message. -/
inductive LoginResult where
  | success (token : String) (id : Nat) (username realname email : String)
  | failure (msg : String)
deriving DecidableEq, Repr

/-- `AuthController.Login`: look the user up by username
(`GetUserByUsername`, both lookup failure and a bcrypt mismatch answer with
the same generic error envelope), verify the password, and issue a token. -/
def Login (req : LoginRequest) (db : DBState) : LoginResult :=
  match db.users.find? (fun u => u.username == req.username) with
  | none => .failure "用户名或密码错误"
  | some user =>
      if !VerifyPassword user req.password then .failure "用户名或密码错误"
      else .success (GenerateToken user.id user.username) user.id user.username
        user.realname user.email

/-- A JSON value, for stating what the Gin handlers serialize. -/
inductive Json where
  | str (s : String)
  | num (n : Int)
  | bool (b : Bool)
  | null
  | arr (xs : List Json)
  | obj (fields : List (String × Json))

/-- The JSON object Go's `encoding/json` produces for a `User` value,
following the struct tags of `models.go`: `Password` is tagged `json:"-"`
and is never serialized; `Role` is tagged `omitempty` and the list / detail /
create handlers do not preload it, so it is absent; `role_id` is always
present (null when unset).  Timestamps are omitted from the model. -/
def userToJson (u : User) : List (String × Json) :=
  [("id", .num u.id),
   ("username", .str u.username),
   ("realname", .str u.realname),
   ("email", .str u.email),
   ("status", .num u.status),
   ("role_id", match u.roleId with | some r => .num r | none => .null)]

/-- The `data` payload of `UserController.GetList`: the page of users, each
serialized by `userToJson`. -/
def userListJson (users : List User) : Json :=
  .arr (users.map fun u => .obj (userToJson u))

/-- The body of a user update request (`UpdateUserRequest` in the user
controller): plain strings that default to empty when omitted, and an
optional status. -/
structure UpdateUserReq where
  username : String
  realname : String
  email : String
  status : Option Int
deriving DecidableEq, Repr

/-- `UserController.Update`: build the partial update map, adding each string
field only when it is non-empty and the status only when it was sent, then
call `UserService.UpdateUser`. -/
def userControllerUpdate (id : Nat) (req : UpdateUserReq) (db : DBState) : DBState :=
  let updates : List (String × FieldValue) :=
    (if req.username ≠ "" then [("username", FieldValue.str req.username)] else []) ++
    (if req.realname ≠ "" then [("realname", FieldValue.str req.realname)] else []) ++
    (if req.email ≠ "" then [("email", FieldValue.str req.email)] else []) ++
    (match req.status with | some n => [("status", FieldValue.int n)] | none => [])
  UpdateUser id updates db

/-- The body of a role update request (`UpdateRoleRequest` in the role
controller). -/
structure UpdateRoleReq where
  name : String
  code : String
  description : String
deriving DecidableEq, Repr

/-- `RoleController.Update`: build the partial update map, adding each string
field only when it is non-empty, then call `RoleService.UpdateRole`. -/
def roleControllerUpdate (id : Nat) (req : UpdateRoleReq) (db : DBState) : DBState :=
  let updates : List (String × FieldValue) :=
    (if req.name ≠ "" then [("name", FieldValue.str req.name)] else []) ++
    (if req.code ≠ "" then [("code", FieldValue.str req.code)] else []) ++
    (if req.description ≠ "" then [("description", FieldValue.str req.description)] else [])
  UpdateRole id updates db

/-! ### Lemmas about the `sort.Slice` comparator and the insertion sort -/

theorem permLess_asymm {a b : Permission} (h : permLess b a = true) :
    permLess a b = false := by
  unfold permLess at *
  split_ifs at * with h1 h2 h3 <;> simp_all <;> omega

theorem permLess_false_trans {a b c : Permission} (hba : permLess b a = false)
    (hcb : permLess c b = false) : permLess c a = false := by
  unfold permLess at *
  split_ifs at * with h1 h2 h3 <;> simp_all <;> omega

theorem mem_insertPerm {x a : Permission} : ∀ {l : List Permission},
    (x ∈ insertPerm a l ↔ x = a ∨ x ∈ l)
  | [] => by simp [insertPerm]
  | b :: bs => by
    unfold insertPerm
    split
    · simp only [List.mem_cons, mem_insertPerm (l := bs)]
      tauto
    · simp only [List.mem_cons]

theorem mem_sortPerms {x : Permission} : ∀ {l : List Permission},
    (x ∈ sortPerms l ↔ x ∈ l)
  | [] => Iff.rfl
  | a :: as => by
    unfold sortPerms
    rw [mem_insertPerm, mem_sortPerms (l := as), List.mem_cons]

theorem insertPerm_pairwise {a : Permission} : ∀ {l : List Permission},
    (l.Pairwise fun x y => permLess y x = false) →
    (insertPerm a l).Pairwise fun x y => permLess y x = false
  | [], _ => by simp [insertPerm]
  | b :: bs, h => by
    rw [List.pairwise_cons] at h
    unfold insertPerm
    split
    · rename_i hba
      rw [List.pairwise_cons]
      refine ⟨fun y hy => ?_, insertPerm_pairwise h.2⟩
      rcases mem_insertPerm.mp hy with rfl | hy
      · exact permLess_asymm hba
      · exact h.1 y hy
    · rename_i hba
      rw [Bool.not_eq_true] at hba
      rw [List.pairwise_cons]
      refine ⟨fun y hy => ?_, List.pairwise_cons.mpr h⟩
      rcases List.mem_cons.mp hy with rfl | hy
      · exact hba
      · exact permLess_false_trans hba (h.1 y hy)

theorem sortPerms_pairwise : ∀ {l : List Permission},
    (sortPerms l).Pairwise fun x y => permLess y x = false
  | [] => List.Pairwise.nil
  | _ :: as => insertPerm_pairwise (sortPerms_pairwise (l := as))

/-! ### Lemmas about the tree build -/

theorem buildNode_id (ps : List Permission) (fuel : Nat) (p : Permission) :
    (buildNode ps fuel p).id = p.id := by cases fuel <;> rfl

theorem buildNode_code (ps : List Permission) (fuel : Nat) (p : Permission) :
    (buildNode ps fuel p).code = p.code := by cases fuel <;> rfl

theorem buildNode_parentCode (ps : List Permission) (fuel : Nat) (p : Permission) :
    (buildNode ps fuel p).parentCode = p.parentCode := by cases fuel <;> rfl

theorem buildNode_ty (ps : List Permission) (fuel : Nat) (p : Permission) :
    (buildNode ps fuel p).ty = p.ty := by cases fuel <;> rfl

theorem buildNode_sortv (ps : List Permission) (fuel : Nat) (p : Permission) :
    (buildNode ps fuel p).sortv = p.sortv := by cases fuel <;> rfl

theorem buildNode_hasChildren (ps : List Permission) (fuel : Nat) (p : Permission) :
    (buildNode ps fuel p).hasChildren = !(childPerms ps p.code).isEmpty := by
  cases fuel <;> rfl

theorem buildNode_children (ps : List Permission) (fuel : Nat) (p : Permission) :
    (buildNode ps (fuel + 1) p).children
      = (sortPerms (childPerms ps p.code)).map (buildNode ps fuel) := rfl

theorem nodeLe_buildNode {a b : Permission} (ps : List Permission) (f g : Nat)
    (h : permLess b a = false) :
    nodeLe (buildNode ps f a) (buildNode ps g b) = true := by
  unfold nodeLe
  rw [buildNode_ty, buildNode_ty, buildNode_sortv, buildNode_sortv]
  unfold permLess at h
  split_ifs at h <;> (simp_all; try omega)

theorem nodesOrdered_of_pairwise : ∀ {l : List PermissionTree},
    (l.Pairwise fun t u => nodeLe t u = true) → nodesOrdered l = true
  | [], _ => rfl
  | [_], _ => rfl
  | a :: b :: rest, h => by
    rw [List.pairwise_cons] at h
    unfold nodesOrdered
    rw [Bool.and_eq_true]
    exact ⟨h.1 b (by simp), nodesOrdered_of_pairwise h.2⟩

theorem forestSortedAux_of_all : ∀ {ts : List PermissionTree},
    (∀ t ∈ ts, treeSorted t = true) → forestSortedAux ts = true
  | [], _ => rfl
  | t :: ts, h => by
    unfold forestSortedAux
    rw [Bool.and_eq_true]
    exact ⟨h t (by simp), forestSortedAux_of_all fun u hu => h u (by simp [hu])⟩

theorem nodesOrdered_sorted_map (ps : List Permission) (fuel : Nat)
    (l : List Permission) :
    nodesOrdered ((sortPerms l).map (buildNode ps fuel)) = true := by
  apply nodesOrdered_of_pairwise
  rw [List.pairwise_map]
  exact List.Pairwise.imp (fun h => nodeLe_buildNode ps fuel fuel h) sortPerms_pairwise

theorem treeSorted_buildNode (ps : List Permission) :
    ∀ (fuel : Nat) (p : Permission), treeSorted (buildNode ps fuel p) = true
  | 0, p => rfl
  | fuel + 1, p => by
    show treeSorted (.node _ _ _ _ _ _ _ _ _ _) = true
    unfold treeSorted
    rw [Bool.and_eq_true]
    refine ⟨nodesOrdered_sorted_map ps fuel _, forestSortedAux_of_all ?_⟩
    intro t ht
    rcases List.mem_map.mp ht with ⟨q, _, rfl⟩
    exact treeSorted_buildNode ps fuel q

theorem getPermissionTrees_pairwise (ps : List Permission) :
    (GetPermissionTrees ps).Pairwise fun t u => nodeLe t u = true := by
  unfold GetPermissionTrees
  rw [List.pairwise_map]
  exact List.Pairwise.imp (fun h => nodeLe_buildNode ps ps.length ps.length h)
    sortPerms_pairwise

theorem treeSorted_of_mem_getPermissionTrees (ps : List Permission)
    (t : PermissionTree) (ht : t ∈ GetPermissionTrees ps) : treeSorted t = true := by
  unfold GetPermissionTrees at ht
  rcases List.mem_map.mp ht with ⟨q, _, rfl⟩
  exact treeSorted_buildNode ps ps.length q

mutual

/-- Whether some node of the tree satisfies `f`. -/
def treeAnyNode (f : PermissionTree → Bool) : PermissionTree → Bool
  | .node i n c pc pa t s d cs h =>
      f (.node i n c pc pa t s d cs h) || forestAnyNode f cs

def forestAnyNode (f : PermissionTree → Bool) : List PermissionTree → Bool
  | [] => false
  | t :: ts => treeAnyNode f t || forestAnyNode f ts

end

/-- Whether some node of the forest has code `pc` and a direct child with
code `cc`. -/
def forestLinksChild (pc cc : String) (ts : List PermissionTree) : Bool :=
  forestAnyNode (fun t => t.code == pc && (t.children.any fun c => c.code == cc)) ts

theorem exists_of_forestHasCode {c : String} : ∀ {ts : List PermissionTree},
    forestHasCode c ts = true → ∃ t ∈ ts, treeHasCode c t = true
  | t :: ts, h => by
    unfold forestHasCode at h
    rw [Bool.or_eq_true] at h
    rcases h with h | h
    · exact ⟨t, by simp, h⟩
    · rcases exists_of_forestHasCode h with ⟨u, hu, hc⟩
      exact ⟨u, by simp [hu], hc⟩

theorem mem_childPerms {ps : List Permission} {c : String} {q : Permission} :
    q ∈ childPerms ps c ↔ q ∈ ps ∧ q.parentCode ≠ "" ∧ q.parentCode = c := by
  unfold childPerms
  rw [List.mem_filter]
  simp

/-- Every code occurring in the subtree built for `q` is either `q`'s own
code or the code of a row whose non-empty `parent_code` matches the code of
some row of the list. -/
theorem treeHasCode_buildNode {ps : List Permission} {c : String} :
    ∀ (fuel : Nat) (q : Permission), q ∈ ps →
    treeHasCode c (buildNode ps fuel q) = true →
    c = q.code ∨
      ∃ r ∈ ps, r.code = c ∧ r.parentCode ≠ "" ∧ ∃ s ∈ ps, s.code = r.parentCode
  | 0, q, _, h => by
    unfold buildNode treeHasCode at h
    unfold forestHasCode at h
    simp only [Bool.or_false, beq_iff_eq] at h
    exact Or.inl h.symm
  | fuel + 1, q, hq, h => by
    unfold buildNode treeHasCode at h
    rw [Bool.or_eq_true, beq_iff_eq] at h
    rcases h with h | h
    · exact Or.inl h.symm
    · rcases exists_of_forestHasCode h with ⟨t, ht, hc⟩
      rcases List.mem_map.mp ht with ⟨r, hr, rfl⟩
      replace hr := mem_childPerms.mp (mem_sortPerms.mp hr)
      rcases treeHasCode_buildNode fuel r hr.1 hc with h' | h'
      · exact Or.inr ⟨r, hr.1, h'.symm, hr.2.1, q, hq, hr.2.2.symm⟩
      · exact Or.inr h'

/-- Two flat rows as read by `GetAllPermissions` (sorted by type, sort, id,
with distinct codes): a root `p` and its child `c`. -/
def psW : List Permission :=
  [⟨1, "P", "p", "", "/p", 1, 0, ""⟩, ⟨2, "C", "c", "p", "", 1, 1, ""⟩]

/-- A flat row list in which one permission's code is the empty string and a
second permission's `parent_code` is that empty string. -/
def psE : List Permission :=
  [⟨1, "E", "", "", "", 1, 0, ""⟩, ⟨2, "A", "a", "", "", 1, 1, ""⟩]

/-- A flat row list consisting of a single orphan: its `parent_code` is
non-empty and matches no code in the list. -/
def psO : List Permission :=
  [⟨1, "A", "a", "zzz", "", 1, 0, ""⟩]

/-- C1, counterexample.  On `psE` — a valid database read (sorted by (type,
sort, id), distinct codes) — permission `a`'s `parent_code` `""` equals the
code of the first permission, yet no node of the returned forest links the
code-`""` node to a child `a`, and the node built for the code-`""` row has
`HasChildren = false`: the linking loop treats an empty `parent_code` as
"root", not as a reference to the permission whose code is empty. -/
theorem emptyCode_child_not_linked :
    (psE.map Permission.code).Nodup ∧ List.Pairwise dbOrder psE ∧
    (∃ parent ∈ psE, ∃ child ∈ psE, child.parentCode = parent.code ∧
      forestLinksChild parent.code child.code (GetPermissionTrees psE) = false ∧
      (buildNode psE psE.length parent).hasChildren = false) := by
  refine ⟨by decide, by decide, ⟨1, "E", "", "", "", 1, 0, ""⟩, by decide,
    ⟨2, "A", "a", "", "", 1, 1, ""⟩, by decide, rfl, rfl, rfl⟩

/-- C1 (amended: the parent/child link is made only for a NON-EMPTY
`parent_code`; a child whose `parent_code` is the empty string becomes a
root instead).  For every flat row list with distinct codes, sorted by
(type, sort, id) as `GetAllPermissions` reads it: every permission whose
non-empty `parent_code` equals the code of some permission of the list
appears in the `Children` slice of the node built for that permission, whose
`HasChildren` flag is true; and the root slice as well as every `Children`
slice of the returned forest is ordered by (type ascending, then sort
ascending). -/
theorem permissionTrees_nest_and_sort (ps : List Permission)
    (hnd : (ps.map Permission.code).Nodup) (hsorted : List.Pairwise dbOrder ps)
    (parent child : Permission) (hp : parent ∈ ps) (hc : child ∈ ps)
    (hne : child.parentCode ≠ "") (heq : child.parentCode = parent.code) :
    ((buildNode ps ps.length parent).hasChildren = true ∧
      ∃ t ∈ (buildNode ps ps.length parent).children,
        t.id = child.id ∧ t.code = child.code) ∧
    List.Pairwise (fun t u => nodeLe t u = true) (GetPermissionTrees ps) ∧
    (∀ t ∈ GetPermissionTrees ps, treeSorted t = true) := by
  have hchild : child ∈ childPerms ps parent.code :=
    mem_childPerms.mpr ⟨hc, hne, heq⟩
  obtain ⟨n, hn⟩ : ∃ n, ps.length = n + 1 := by
    cases ps with
    | nil => simp at hc
    | cons a as => exact ⟨as.length, rfl⟩
  refine ⟨⟨?_, ?_⟩, getPermissionTrees_pairwise ps,
    treeSorted_of_mem_getPermissionTrees ps⟩
  · rw [buildNode_hasChildren, Bool.not_eq_true', ← Bool.not_eq_true,
      List.isEmpty_iff]
    exact List.ne_nil_of_mem hchild
  · rw [hn, buildNode_children]
    exact ⟨buildNode ps n child,
      List.mem_map.mpr ⟨child, mem_sortPerms.mpr hchild, rfl⟩,
      buildNode_id ps n child, buildNode_code ps n child⟩

/-- C1, witness: the amended theorem applied to the concrete read `psW`,
whose second row is a child of the first. -/
theorem permissionTrees_nest_and_sort_witness :
    ((psW.map Permission.code).Nodup ∧ List.Pairwise dbOrder psW ∧
      (⟨1, "P", "p", "", "/p", 1, 0, ""⟩ : Permission) ∈ psW ∧
      (⟨2, "C", "c", "p", "", 1, 1, ""⟩ : Permission) ∈ psW) ∧
    (((buildNode psW psW.length ⟨1, "P", "p", "", "/p", 1, 0, ""⟩).hasChildren = true ∧
      ∃ t ∈ (buildNode psW psW.length ⟨1, "P", "p", "", "/p", 1, 0, ""⟩).children,
        t.id = 2 ∧ t.code = "c") ∧
    List.Pairwise (fun t u => nodeLe t u = true) (GetPermissionTrees psW) ∧
    (∀ t ∈ GetPermissionTrees psW, treeSorted t = true)) :=
  ⟨⟨by decide, by decide, by decide, by decide⟩,
    permissionTrees_nest_and_sort psW (by decide) (by decide)
      ⟨1, "P", "p", "", "/p", 1, 0, ""⟩ ⟨2, "C", "c", "p", "", 1, 1, ""⟩
      (by decide) (by decide) (by decide) (by decide)⟩

/-- C2, counterexample.  On the single-row read `psO`, whose permission has
the non-empty orphaned `parent_code` `"zzz"`, `GetPermissionTrees` returns
the empty forest: the orphan is NOT placed as a root-level node — the
linking loop's else-branch attaches a non-empty-`parent_code` row only when
the parent code exists, and otherwise drops it. -/
theorem orphan_not_root :
    (∃ p ∈ psO, p.parentCode ≠ "" ∧ ∀ q ∈ psO, q.code ≠ p.parentCode) ∧
    GetPermissionTrees psO = [] :=
  ⟨by decide, rfl⟩

/-- C2 (amended: a permission whose non-empty `parent_code` matches no code
in the list is silently LOST from the returned forest — it appears neither
as a root-level node nor as any node's child).  For every flat row list with
distinct codes, an orphaned permission's code occurs nowhere in the forest
`GetPermissionTrees` returns. -/
theorem orphan_dropped_from_forest (ps : List Permission)
    (hnd : (ps.map Permission.code).Nodup)
    (p : Permission) (hp : p ∈ ps) (hne : p.parentCode ≠ "")
    (horphan : ∀ q ∈ ps, q.code ≠ p.parentCode) :
    forestHasCode p.code (GetPermissionTrees ps) = false := by
  by_contra hmem
  rw [Bool.not_eq_false] at hmem
  rcases exists_of_forestHasCode hmem with ⟨t, ht, hcode⟩
  unfold GetPermissionTrees at ht
  rcases List.mem_map.mp ht with ⟨q, hq, rfl⟩
  replace hq := mem_sortPerms.mp hq
  unfold rootPerms at hq
  rw [List.mem_filter, beq_iff_eq] at hq
  rcases treeHasCode_buildNode ps.length q hq.1 hcode with h | h
  · have : p = q := List.inj_on_of_nodup_map hnd hp hq.1 h
    rw [this, hq.2] at hne
    exact hne rfl
  · rcases h with ⟨r, hr, hrc, _, s, hs, hsc⟩
    have : r = p := List.inj_on_of_nodup_map hnd hr hp hrc
    rw [this] at hsc
    exact horphan s hs hsc

/-- C2, witness: the amended theorem applied to the concrete orphan read
`psO`. -/
theorem orphan_dropped_from_forest_witness :
    ((psO.map Permission.code).Nodup ∧
      (⟨1, "A", "a", "zzz", "", 1, 0, ""⟩ : Permission) ∈ psO) ∧
    forestHasCode "a" (GetPermissionTrees psO) = false :=
  ⟨⟨by decide, by decide⟩,
    orphan_dropped_from_forest psO (by decide) ⟨1, "A", "a", "zzz", "", 1, 0, ""⟩
      (by decide) (by decide) (by decide)⟩

/-- A database with one role (id 1), one permission (id 1) and one
`role_permissions` row linking them. -/
def dbR : DBState :=
  { users := [],
    roles := [⟨1, "超级管理员", "admin", "系统超级管理员"⟩],
    permissions := [⟨1, "系统管理", "system", "", "/system", 1, 0, "系统管理模块"⟩],
    rolePermissions := [(1, 1)] }

/-- The same database with a second role (id 2) that has no permissions. -/
def dbR2 : DBState :=
  { dbR with roles := dbR.roles ++ [⟨2, "普通用户", "user", "普通用户"⟩] }

/-- C3, counterexample.  `dbR` holds role 1 with one `role_permissions`
entry; after `DeleteRole 1` the role row is gone but its join-table entry
`(1, 1)` is still present: `models.DB.Delete(&Role{}, id)` issues a plain
`DELETE FROM roles` and clears no associations. -/
theorem deleteRole_join_rows_remain :
    (∃ r ∈ dbR.roles, r.id = 1) ∧
    (∀ r ∈ (DeleteRole 1 dbR).roles, r.id ≠ 1) ∧
    ¬ (∀ rp ∈ (DeleteRole 1 dbR).rolePermissions, rp.1 ≠ 1) := by decide

/-- C3 (amended: `DeleteRole` removes only the role row itself; the role's
entries in the `role_permissions` join table are left in place — only
`DeletePermission` does association cleanup — and every `Permission` record,
user and join row is unchanged). -/
theorem deleteRole_frame (id : Nat) (db : DBState) :
    (DeleteRole id db).users = db.users ∧
    (DeleteRole id db).permissions = db.permissions ∧
    (DeleteRole id db).rolePermissions = db.rolePermissions ∧
    (∀ r ∈ (DeleteRole id db).roles, r.id ≠ id) ∧
    (∀ r ∈ db.roles, r.id ≠ id → r ∈ (DeleteRole id db).roles) := by
  refine ⟨rfl, rfl, rfl, ?_, ?_⟩
  · intro r hr
    rw [DeleteRole] at hr
    simp only [List.mem_filter, bne_iff_ne, ne_eq] at hr
    exact hr.2
  · intro r hr hne
    rw [DeleteRole]
    simp only [List.mem_filter, bne_iff_ne, ne_eq]
    exact ⟨hr, hne⟩

/-- C3, witness: the amended theorem applied to `dbR2`; deleting role 1
keeps the join rows and keeps the unrelated role 2. -/
theorem deleteRole_frame_witness :
    (DeleteRole 1 dbR2).rolePermissions = dbR2.rolePermissions ∧
    (DeleteRole 1 dbR2).permissions = dbR2.permissions ∧
    (⟨2, "普通用户", "user", "普通用户"⟩ : Role) ∈ (DeleteRole 1 dbR2).roles :=
  ⟨(deleteRole_frame 1 dbR2).2.2.1, (deleteRole_frame 1 dbR2).2.1,
    (deleteRole_frame 1 dbR2).2.2.2.2 ⟨2, "普通用户", "user", "普通用户"⟩
      (by decide) (by decide)⟩

theorem wrapInt64_eq_self {n : Int} (h0 : 0 ≤ n) (h1 : n < 9223372036854775808) :
    wrapInt64 n = n := by
  unfold wrapInt64
  split <;> omega

/-- Three users and two roles, for exercising pagination. -/
def dbP : DBState :=
  { users :=
      [⟨1, "admin", "$2a$10$admin123", "管理员", "admin@example.com", 1, none⟩,
       ⟨2, "u2", "$2a$10$x", "乙", "u2@example.com", 1, none⟩,
       ⟨3, "u3", "$2a$10$y", "丙", "u3@example.com", 0, none⟩],
    roles := [⟨1, "超级管理员", "admin", ""⟩, ⟨2, "普通用户", "user", ""⟩],
    permissions := [],
    rolePermissions := [] }

/-- C4, counterexample.  At `page = 2^62 + 1`, `pageSize = 4` (both within
Go `int` range, `page ≥ 1`, `pageSize ≥ 0`), the Go computation
`offset := (page - 1) * pageSize` wraps to `0`, so `GetUserList` returns the
first rows of the table, not the rows starting at the mathematical offset
`(page-1)*pageSize = 2^64` — which would be the empty page. -/
theorem list_pagination_wraps :
    ((1 : Int) ≤ 2 ^ 62 + 1 ∧ (0 : Int) ≤ 4) ∧
    (GetUserList (2 ^ 62 + 1) 4 dbP).1 = dbP.users ∧
    (dbP.users.drop (((2 : Int) ^ 62 + 1 - 1) * 4).toNat).take ((4 : Int)).toNat
        = [] ∧
    (GetUserList (2 ^ 62 + 1) 4 dbP).1
      ≠ (dbP.users.drop (((2 : Int) ^ 62 + 1 - 1) * 4).toNat).take ((4 : Int)).toNat := by
  have h2 : (GetUserList (2 ^ 62 + 1) 4 dbP).1 = dbP.users := by decide
  have h3 : (dbP.users.drop (((2 : Int) ^ 62 + 1 - 1) * 4).toNat).take
      ((4 : Int)).toNat = [] := by
    rw [List.drop_eq_nil_of_le (by decide)]
    exact List.take_nil
  refine ⟨⟨by norm_num, by norm_num⟩, h2, h3, ?_⟩
  rw [h2, h3]
  decide

/-- C4 (amended: the offset computation `(page-1)*pageSize` is Go 64-bit
`int` arithmetic and wraps on overflow, possibly cancelling the `OFFSET`
clause; the paging guarantee therefore holds for every `page ≥ 1` and
`pageSize ≥ 0` that are representable Go ints whose offset product does not
overflow).  Under those bounds, `GetUserList` and `GetRoleList` return
exactly the rows starting at offset `(page-1)*pageSize`, at most `pageSize`
of them, together with a total that equals the full table count and does not
depend on `page` or `pageSize`. -/
theorem list_pagination_no_overflow (page pageSize : Int)
    (h1 : 1 ≤ page) (h2 : 0 ≤ pageSize)
    (hpage : page ≤ 9223372036854775807)
    (hprod : (page - 1) * pageSize ≤ 9223372036854775807)
    (db : DBState) :
    (GetUserList page pageSize db).1
      = (db.users.drop ((page - 1) * pageSize).toNat).take pageSize.toNat ∧
    (GetUserList page pageSize db).1.length ≤ pageSize.toNat ∧
    (GetUserList page pageSize db).2 = db.users.length ∧
    (GetRoleList page pageSize db).1
      = (db.roles.drop ((page - 1) * pageSize).toNat).take pageSize.toNat ∧
    (GetRoleList page pageSize db).1.length ≤ pageSize.toNat ∧
    (GetRoleList page pageSize db).2 = db.roles.length ∧
    (∀ p s : Int, (GetUserList p s db).2 = (GetUserList page pageSize db).2 ∧
      (GetRoleList p s db).2 = (GetRoleList page pageSize db).2) := by
  have hoff : 0 ≤ (page - 1) * pageSize := mul_nonneg (by omega) h2
  have hw1 : wrapInt64 (page - 1) = page - 1 :=
    wrapInt64_eq_self (by omega) (by omega)
  have hw2 : wrapInt64 ((page - 1) * pageSize) = (page - 1) * pageSize :=
    wrapInt64_eq_self hoff (by omega)
  have hu : (GetUserList page pageSize db).1
      = (db.users.drop ((page - 1) * pageSize).toNat).take pageSize.toNat := by
    simp only [GetUserList, paginate]
    rw [hw1, hw2, if_pos hoff, if_pos h2]
  have hr : (GetRoleList page pageSize db).1
      = (db.roles.drop ((page - 1) * pageSize).toNat).take pageSize.toNat := by
    simp only [GetRoleList, paginate]
    rw [hw1, hw2, if_pos hoff, if_pos h2]
  refine ⟨hu, ?_, rfl, hr, ?_, rfl, fun p s => ⟨rfl, rfl⟩⟩
  · rw [hu]; exact List.length_take_le _ _
  · rw [hr]; exact List.length_take_le _ _

/-- C4, witness: page 2 of size 1 over `dbP` (no overflow) is exactly the
second user, and the reported totals are the full table counts. -/
theorem list_pagination_no_overflow_witness :
    (GetUserList 2 1 dbP).1 = [⟨2, "u2", "$2a$10$x", "乙", "u2@example.com", 1, none⟩] ∧
    (GetUserList 2 1 dbP).2 = 3 ∧ (GetRoleList 2 1 dbP).2 = 2 :=
  ⟨((list_pagination_no_overflow 2 1 (by norm_num) (by norm_num) (by norm_num)
        (by norm_num) dbP).1).trans (by decide),
    (list_pagination_no_overflow 2 1 (by norm_num) (by norm_num) (by norm_num)
        (by norm_num) dbP).2.2.1.trans (by decide),
    (list_pagination_no_overflow 2 1 (by norm_num) (by norm_num) (by norm_num)
        (by norm_num) dbP).2.2.2.2.2.1.trans (by decide)⟩

/-- C5.  When the database already holds a user with the new user's
username, `CreateUser` answers with the duplicate-username error and leaves
the database (in particular the users table) unchanged. -/
theorem createUser_duplicate_rejected (db : DBState) (u newUser : User)
    (hu : u ∈ db.users) (hname : newUser.username = u.username) :
    (CreateUser newUser db).1 = .error "用户名已存在" ∧
    (CreateUser newUser db).2 = db := by
  have hany : (db.users.any fun v => v.username == newUser.username) = true :=
    List.any_eq_true.mpr ⟨u, hu, beq_iff_eq.mpr hname.symm⟩
  unfold CreateUser
  rw [if_pos hany]
  exact ⟨rfl, rfl⟩

/-- C5, witness: creating a second `admin` against `dbP` is rejected and
`dbP` is untouched. -/
theorem createUser_duplicate_rejected_witness :
    (CreateUser ⟨9, "admin", "pw", "x", "x@example.com", 1, none⟩ dbP).1
        = .error "用户名已存在" ∧
    (CreateUser ⟨9, "admin", "pw", "x", "x@example.com", 1, none⟩ dbP).2 = dbP :=
  createUser_duplicate_rejected dbP
    ⟨1, "admin", "$2a$10$admin123", "管理员", "admin@example.com", 1, none⟩
    ⟨9, "admin", "pw", "x", "x@example.com", 1, none⟩ (by decide) (by decide)

/-- C6.  Under the unique-username invariant, `Login` answers with the
success envelope (token plus user info) exactly when the supplied username
belongs to some user whose stored bcrypt hash matches the supplied password;
a matching user yields the token for their id and username; and every
failure — unknown username or wrong password alike — is the same generic
error envelope, indistinguishable to the client. -/
theorem login_success_iff (req : LoginRequest) (db : DBState)
    (hnd : db.users.Pairwise fun a b => a.username ≠ b.username) :
    ((∃ u ∈ db.users, u.username = req.username ∧ VerifyPassword u req.password = true)
      ↔ ∃ t i un rn em, Login req db = .success t i un rn em) ∧
    (∀ u ∈ db.users, u.username = req.username → VerifyPassword u req.password = true →
      Login req db
        = .success (GenerateToken u.id u.username) u.id u.username u.realname u.email) ∧
    (∀ msg, Login req db = .failure msg → msg = "用户名或密码错误") := by
  rcases hfind : db.users.find? (fun u => u.username == req.username) with _ | user
  · have hall := List.find?_eq_none.mp hfind
    have hlogin : Login req db = .failure "用户名或密码错误" := by
      unfold Login
      rw [hfind]
    refine ⟨⟨fun h => absurd h ?_, fun h => ?_⟩, fun u hu hun _ => ?_, fun msg hm => ?_⟩
    · rintro ⟨u, hu, hun, -⟩
      exact absurd (beq_iff_eq.mpr hun) (hall u hu)
    · rcases h with ⟨t, i, un, rn, em, h⟩
      rw [hlogin] at h
      exact absurd h (by simp)
    · exact absurd (beq_iff_eq.mpr hun) (hall u hu)
    · rw [hlogin] at hm
      exact (LoginResult.failure.injEq _ _).mp hm.symm
  · have hmem : user ∈ db.users := List.mem_of_find?_eq_some hfind
    have hpred := List.find?_some hfind
    have huser : user.username = req.username := by simpa using hpred
    have huniq : ∀ u ∈ db.users, u.username = req.username → u = user := by
      intro u hu hun
      by_contra hne
      exact List.Pairwise.forall (fun {a b} h => fun heq => h heq.symm) hnd hu hmem hne
        (hun.trans huser.symm)
    cases hv : VerifyPassword user req.password with
    | true =>
      have hlogin : Login req db
          = .success (GenerateToken user.id user.username) user.id user.username
              user.realname user.email := by
        unfold Login
        rw [hfind]
        simp [hv]
      refine ⟨⟨fun _ => ?_, fun _ => ⟨user, hmem, huser, hv⟩⟩, fun u hu hun hvu => ?_,
        fun msg hm => ?_⟩
      · exact ⟨_, _, _, _, _, hlogin⟩
      · rcases huniq u hu hun with rfl
        exact hlogin
      · rw [hlogin] at hm
        exact absurd hm (by simp)
    | false =>
      have hlogin : Login req db = .failure "用户名或密码错误" := by
        unfold Login
        rw [hfind]
        simp [hv]
      refine ⟨⟨fun h => ?_, fun h => ?_⟩, fun u hu hun hvu => ?_, fun msg hm => ?_⟩
      · rcases h with ⟨u, hu, hun, hvu⟩
        rcases huniq u hu hun with rfl
        rw [hvu] at hv
        exact absurd hv (by decide)
      · rcases h with ⟨t, i, un, rn, em, h⟩
        rw [hlogin] at h
        exact absurd h (by simp)
      · rcases huniq u hu hun with rfl
        rw [hvu] at hv
        exact absurd hv (by decide)
      · rw [hlogin] at hm
        exact (LoginResult.failure.injEq _ _).mp hm.symm

/-- A database holding the seeded admin user, whose stored password is the
bcrypt hash of `admin123`. -/
def dbL : DBState :=
  { users := [⟨1, "admin", bcryptGenerateFromPassword "admin123", "管理员",
      "admin@example.com", 1, none⟩],
    roles := [], permissions := [], rolePermissions := [] }

/-- C6, witness: logging in as the seeded admin with the right password
yields the success envelope with the token and user info, and a wrong
password yields the generic error envelope. -/
theorem login_success_iff_witness :
    Login ⟨"admin", "admin123"⟩ dbL
      = .success (GenerateToken 1 "admin") 1 "admin" "管理员" "admin@example.com" ∧
    Login ⟨"admin", "wrong"⟩ dbL = .failure "用户名或密码错误" :=
  ⟨(login_success_iff ⟨"admin", "admin123"⟩ dbL (by decide)).2.1
      ⟨1, "admin", bcryptGenerateFromPassword "admin123", "管理员",
        "admin@example.com", 1, none⟩
      (by decide) (by decide) (by decide),
    by
      have h := (login_success_iff ⟨"admin", "wrong"⟩ dbL (by decide)).2.2
      cases hl : Login ⟨"admin", "wrong"⟩ dbL with
      | success t i un rn em =>
        have hex := (login_success_iff ⟨"admin", "wrong"⟩ dbL (by decide)).1.mpr
          ⟨t, i, un, rn, em, hl⟩
        rcases hex with ⟨u, hu, hun, hv⟩
        rcases List.mem_singleton.mp hu with rfl
        exact absurd hv (by decide)
      | failure msg => rw [h msg hl]⟩

/-- C7.  `DeletePermission` is atomic: when no permission has the given id
it answers the record-not-found error with the database unchanged; when the
permission exists it succeeds, its `role_permissions` rows and its
permission row are gone, every other join row and permission row survives,
and the users and roles tables are untouched. -/
theorem deletePermission_atomic (id : Nat) (db : DBState) :
    ((∀ p ∈ db.permissions, p.id ≠ id) →
      DeletePermission id db = (.error "record not found", db)) ∧
    ((∃ p ∈ db.permissions, p.id = id) →
      (DeletePermission id db).1 = .ok () ∧
      (DeletePermission id db).2.users = db.users ∧
      (DeletePermission id db).2.roles = db.roles ∧
      (∀ rp ∈ (DeletePermission id db).2.rolePermissions, rp.2 ≠ id) ∧
      (∀ p ∈ (DeletePermission id db).2.permissions, p.id ≠ id) ∧
      (∀ rp ∈ db.rolePermissions, rp.2 ≠ id →
        rp ∈ (DeletePermission id db).2.rolePermissions) ∧
      (∀ p ∈ db.permissions, p.id ≠ id → p ∈ (DeletePermission id db).2.permissions)) := by
  rcases hfind : db.permissions.find? (fun p => p.id == id) with _ | p0
  · have hall := List.find?_eq_none.mp hfind
    constructor
    · intro _
      unfold DeletePermission
      rw [hfind]
    · rintro ⟨p, hp, hpid⟩
      exact absurd (beq_iff_eq.mpr hpid) (hall p hp)
  · have hdel : DeletePermission id db
        = (.ok (),
            { db with
                rolePermissions := db.rolePermissions.filter fun rp => rp.2 != id,
                permissions := db.permissions.filter fun p => p.id != id }) := by
      unfold DeletePermission
      rw [hfind]
    constructor
    · intro hall
      have hmem := List.mem_of_find?_eq_some hfind
      have hpred := List.find?_some hfind
      exact absurd (by simpa using hpred) (hall p0 hmem)
    · intro _
      rw [hdel]
      refine ⟨rfl, rfl, rfl, ?_, ?_, ?_, ?_⟩
      · intro rp hrp
        simp only [List.mem_filter, bne_iff_ne, ne_eq] at hrp
        exact hrp.2
      · intro p hp
        simp only [List.mem_filter, bne_iff_ne, ne_eq] at hp
        exact hp.2
      · intro rp hrp hne
        simp only [List.mem_filter, bne_iff_ne, ne_eq]
        exact ⟨hrp, hne⟩
      · intro p hp hne
        simp only [List.mem_filter, bne_iff_ne, ne_eq]
        exact ⟨hp, hne⟩

/-- C7, witness: deleting permission 1 from `dbR` succeeds, clears the
association row `(1, 1)` and removes the permission row, and deleting a
missing permission id from `dbR` fails with the state unchanged. -/
theorem deletePermission_atomic_witness :
    ((DeletePermission 1 dbR).1 = .ok () ∧
      (DeletePermission 1 dbR).2.users = dbR.users ∧
      (DeletePermission 1 dbR).2.roles = dbR.roles) ∧
    DeletePermission 99 dbR = (.error "record not found", dbR) :=
  ⟨⟨((deletePermission_atomic 1 dbR).2
      ⟨⟨1, "系统管理", "system", "", "/system", 1, 0, "系统管理模块"⟩, by decide, rfl⟩).1,
    ((deletePermission_atomic 1 dbR).2
      ⟨⟨1, "系统管理", "system", "", "/system", 1, 0, "系统管理模块"⟩, by decide, rfl⟩).2.1,
    ((deletePermission_atomic 1 dbR).2
      ⟨⟨1, "系统管理", "system", "", "/system", 1, 0, "系统管理模块"⟩, by decide, rfl⟩).2.2.1⟩,
    (deletePermission_atomic 99 dbR).1 (by decide)⟩

/-! ### Lemmas about the partial update map -/

theorem applyUserField_id (u : User) (kv : String × FieldValue) :
    (applyUserField u kv).id = u.id := by
  unfold applyUserField
  split <;> rfl

theorem applyUserField_password_of_ne (u : User) (kv : String × FieldValue)
    (h : kv.1 ≠ "password") : (applyUserField u kv).password = u.password := by
  unfold applyUserField
  split <;> simp_all

theorem applyUserUpdates_id : ∀ (l : List (String × FieldValue)) (u : User),
    (applyUserUpdates u l).id = u.id
  | [], _ => rfl
  | kv :: rest, u => by
    show (applyUserUpdates (applyUserField u kv) rest).id = u.id
    rw [applyUserUpdates_id rest, applyUserField_id]

theorem applyUserUpdates_password_of_ne :
    ∀ (l : List (String × FieldValue)) (u : User),
    "password" ∉ l.map Prod.fst → (applyUserUpdates u l).password = u.password
  | [], _, _ => rfl
  | kv :: rest, u, h => by
    rw [List.map_cons, List.mem_cons] at h
    push_neg at h
    show (applyUserUpdates (applyUserField u kv) rest).password = u.password
    rw [applyUserUpdates_password_of_ne rest _ h.2,
      applyUserField_password_of_ne u kv (fun he => h.1 he.symm)]

theorem applyUserUpdates_password_eq :
    ∀ (l : List (String × FieldValue)) (u : User) (s : String),
    (l.map Prod.fst).Nodup → l.lookup "password" = some (.str s) →
    (applyUserUpdates u l).password = s
  | [], _, _, _, hlk => by simp [List.lookup] at hlk
  | (k, v) :: rest, u, s, hnd, hlk => by
    rw [List.map_cons, List.nodup_cons] at hnd
    by_cases hk : k = "password"
    · subst hk
      rw [show List.lookup "password" (("password", v) :: rest) = some v from rfl]
        at hlk
      rcases Option.some.injEq .. ▸ hlk with rfl
      show (applyUserUpdates (applyUserField u ("password", .str s)) rest).password = s
      rw [applyUserUpdates_password_of_ne rest _ hnd.1]
      rfl
    · have hbk : ("password" == k) = false := by
        simp [beq_iff_eq]
        exact fun he => hk he.symm
      rw [show List.lookup "password" ((k, v) :: rest)
          = match "password" == k with
            | true => some v
            | false => rest.lookup "password" from rfl, hbk] at hlk
      exact applyUserUpdates_password_eq rest (applyUserField u (k, v)) s hnd.2 hlk

/-- The password-entry replacement `UpdateUser` performs on the
update map. -/
def replacePasswordEntry (h : String) (l : List (String × FieldValue)) :
    List (String × FieldValue) :=
  l.map fun kv =>
    if kv.1 == "password" then ("password", FieldValue.str h) else kv

theorem replacePasswordEntry_keys (h : String) (l : List (String × FieldValue)) :
    (replacePasswordEntry h l).map Prod.fst = l.map Prod.fst := by
  unfold replacePasswordEntry
  rw [List.map_map]
  apply List.map_congr_left
  intro kv _
  by_cases hk : kv.1 = "password"
  · simp [hk]
  · simp [hk]

theorem replacePasswordEntry_lookup (h : String) :
    ∀ (l : List (String × FieldValue)), (l.lookup "password").isSome = true →
    (replacePasswordEntry h l).lookup "password" = some (.str h)
  | (k, v) :: rest, hlk => by
    by_cases hk : k = "password"
    · subst hk
      rfl
    · have hbk : ("password" == k) = false := by
        simp [beq_iff_eq]
        exact fun he => hk he.symm
      have hstep : replacePasswordEntry h ((k, v) :: rest)
          = (k, v) :: replacePasswordEntry h rest := by
        unfold replacePasswordEntry
        rw [List.map_cons]
        congr 1
        simp [beq_iff_eq, hk]
      rw [hstep,
        show List.lookup "password" ((k, v) :: replacePasswordEntry h rest)
          = match "password" == k with
            | true => some v
            | false => (replacePasswordEntry h rest).lookup "password" from rfl,
        hbk]
      rw [show List.lookup "password" ((k, v) :: rest)
          = match "password" == k with
            | true => some v
            | false => rest.lookup "password" from rfl, hbk] at hlk
      exact replacePasswordEntry_lookup h rest hlk

/-- A database holding one user whose stored password is a bcrypt hash. -/
def dbH : DBState :=
  { users := [⟨1, "admin", bcryptGenerateFromPassword "old", "管理员",
      "admin@example.com", 1, none⟩],
    roles := [], permissions := [], rolePermissions := [] }

/-- C8, counterexample.  An update map whose `"password"` entry is the empty
string is written through unchanged: after
`UpdateUser 1 [("password", "")]` the stored password is `""` — exactly the
supplied plaintext, and not the bcrypt hash of it (the hashing branch of
`UpdateUser` requires the entry to be non-empty). -/
theorem updateUser_empty_password_plaintext :
    (UpdateUser 1 [("password", FieldValue.str "")] dbH).users.map User.password
        = [""] ∧
    bcryptGenerateFromPassword "" ≠ "" := by
  constructor
  · rfl
  · intro h
    have hl := congrArg String.length h
    unfold bcryptGenerateFromPassword at hl
    rw [String.length_append] at hl
    have : "$2a$10$".length = 7 := rfl
    simp [this] at hl

/-- C8 (amended: `CreateUser` always stores the bcrypt hash of the supplied
password, never the plaintext; `UpdateUser` hashes a present and NON-EMPTY
`"password"` entry before writing, while a present-but-empty entry is
written through as the empty string; `VerifyPassword` accepts exactly the
plaintext whose bcrypt hash is stored). -/
theorem password_hash_dataflow :
    (∀ (user : User) (db : DBState),
        (CreateUser user db).2 = db ∨
        (CreateUser user db).2.users
          = db.users ++ [{ user with password := bcryptGenerateFromPassword user.password }]) ∧
    (∀ pw : String, bcryptGenerateFromPassword pw ≠ pw) ∧
    (∀ (id : Nat) (updates : List (String × FieldValue)) (p : String) (db : DBState),
        (updates.map Prod.fst).Nodup →
        updates.lookup "password" = some (.str p) → p ≠ "" →
        ∀ u' ∈ (UpdateUser id updates db).users, u'.id = id →
          u'.password = bcryptGenerateFromPassword p) ∧
    (∀ (u : User) (p0 pw : String), u.password = bcryptGenerateFromPassword p0 →
        (VerifyPassword u pw = true ↔ pw = p0)) := by
  refine ⟨?_, ?_, ?_, ?_⟩
  · intro user db
    unfold CreateUser
    split
    · exact Or.inl rfl
    · exact Or.inr rfl
  · intro pw h
    have hl := congrArg String.length h
    unfold bcryptGenerateFromPassword at hl
    rw [String.length_append] at hl
    have : "$2a$10$".length = 7 := rfl
    simp [this] at hl
  · intro id updates p db hnd hlk hp u' hu' hid
    unfold UpdateUser at hu'
    simp only [hlk] at hu'
    rw [if_neg hp] at hu'
    rcases List.mem_map.mp hu' with ⟨u, hu, rfl⟩
    rcases hcase : (u.id == id) with _ | _
    · rw [hcase, if_neg (by simp)] at hid
      rw [beq_eq_false_iff_ne] at hcase
      exact absurd hid hcase
    · rw [if_pos rfl]
      apply applyUserUpdates_password_eq
      · rw [show (updates.map fun kv =>
            if kv.1 == "password" then ("password", FieldValue.str (bcryptGenerateFromPassword p))
            else kv) = replacePasswordEntry (bcryptGenerateFromPassword p) updates from rfl,
          replacePasswordEntry_keys]
        exact hnd
      · rw [show (updates.map fun kv =>
            if kv.1 == "password" then ("password", FieldValue.str (bcryptGenerateFromPassword p))
            else kv) = replacePasswordEntry (bcryptGenerateFromPassword p) updates from rfl]
        exact replacePasswordEntry_lookup _ updates (by rw [hlk]; rfl)
  · intro u p0 pw hstore
    unfold VerifyPassword bcryptCompareHashAndPassword
    rw [hstore, beq_iff_eq]
    constructor
    · intro h
      have hd := congrArg String.data h
      unfold bcryptGenerateFromPassword at hd
      rw [String.data_append, String.data_append] at hd
      have := List.append_cancel_left hd
      exact String.ext this.symm
    · intro h
      rw [h]

/-- C8, witness: hashing is not the identity; updating user 1's password to
the non-empty `new` stores its bcrypt hash; and the stored hash of `old`
verifies exactly against `old`. -/
theorem password_hash_dataflow_witness :
    bcryptGenerateFromPassword "admin123" ≠ "admin123" ∧
    ((UpdateUser 1 [("password", FieldValue.str "new")] dbH).users
        = [⟨1, "admin", bcryptGenerateFromPassword "new", "管理员",
            "admin@example.com", 1, none⟩] ∧
      (⟨1, "admin", bcryptGenerateFromPassword "new", "管理员",
        "admin@example.com", 1, none⟩ : User).password
        = bcryptGenerateFromPassword "new") ∧
    (VerifyPassword ⟨1, "a", bcryptGenerateFromPassword "old", "", "", 1, none⟩ "old"
        = true ↔ "old" = "old") :=
  ⟨password_hash_dataflow.2.1 "admin123",
    ⟨by decide,
      password_hash_dataflow.2.2.1 1 [("password", FieldValue.str "new")] "new" dbH
        (by decide) (by decide) (by decide)
        ⟨1, "admin", bcryptGenerateFromPassword "new", "管理员",
          "admin@example.com", 1, none⟩ (by decide) rfl⟩,
    password_hash_dataflow.2.2.2 ⟨1, "a", bcryptGenerateFromPassword "old", "", "", 1, none⟩
      "old" "old" rfl⟩

/-- C9.  The JSON serialization of a `User` never contains the stored
password hash: `Password` is tagged `json:"-"`, so the serialized field list
has no `"password"` key, and the serialization — of a single user and of the
whole list payload alike — is unchanged under any change of the stored
hash. -/
theorem user_json_no_password :
    (∀ u : User, "password" ∉ (userToJson u).map Prod.fst) ∧
    (∀ (u : User) (pw : String), userToJson { u with password := pw } = userToJson u) ∧
    (∀ (users : List User) (f : User → String),
      userListJson (users.map fun u => { u with password := f u }) = userListJson users) := by
  refine ⟨fun u => ?_, fun u pw => rfl, fun users f => ?_⟩
  · simp [userToJson]
  · unfold userListJson
    rw [List.map_map]
    rfl

/-- C9, witness: the serialization of a concrete user with a stored hash has
no password key, and changing the hash leaves it untouched. -/
theorem user_json_no_password_witness :
    "password" ∉ (userToJson ⟨1, "admin", "$2a$10$s3cret", "管理员",
        "admin@example.com", 1, none⟩).map Prod.fst ∧
    userToJson { (⟨1, "admin", "$2a$10$s3cret", "管理员", "admin@example.com", 1,
        none⟩ : User) with password := "other" }
      = userToJson ⟨1, "admin", "$2a$10$s3cret", "管理员", "admin@example.com", 1, none⟩ :=
  ⟨user_json_no_password.1 ⟨1, "admin", "$2a$10$s3cret", "管理员",
      "admin@example.com", 1, none⟩,
    user_json_no_password.2.1 ⟨1, "admin", "$2a$10$s3cret", "管理员",
      "admin@example.com", 1, none⟩ "other"⟩

/-- The per-row net effect of `UserController.Update`: on the targeted row
each string field takes the request value when that value is non-empty and
keeps its stored value otherwise, the status is written only when sent, and
every other row is untouched.  (This is the proven characterization of
`userControllerUpdate`, stated as a function so the claim's theorem can
relate the handler to it.) -/
def userAfterUpdate (id : Nat) (req : UpdateUserReq) (u : User) : User :=
  if u.id = id then
    { u with
        username := if req.username ≠ "" then req.username else u.username,
        realname := if req.realname ≠ "" then req.realname else u.realname,
        email := if req.email ≠ "" then req.email else u.email,
        status := match req.status with | some n => n | none => u.status }
  else u

/-- The per-row net effect of `RoleController.Update`, analogously. -/
def roleAfterUpdate (id : Nat) (req : UpdateRoleReq) (r : Role) : Role :=
  if r.id = id then
    { r with
        name := if req.name ≠ "" then req.name else r.name,
        code := if req.code ≠ "" then req.code else r.code,
        description := if req.description ≠ "" then req.description else r.description }
  else r

theorem userControllerUpdate_users_eq (id : Nat) (req : UpdateUserReq) (db : DBState) :
    (userControllerUpdate id req db).users = db.users.map (userAfterUpdate id req) := by
  unfold userControllerUpdate UpdateUser
  have hlk : (((if req.username ≠ "" then [("username", FieldValue.str req.username)] else []) ++
      (if req.realname ≠ "" then [("realname", FieldValue.str req.realname)] else []) ++
      (if req.email ≠ "" then [("email", FieldValue.str req.email)] else []) ++
      (match req.status with
        | some n => [("status", FieldValue.int n)]
        | none => [])).lookup "password") = none := by
    rcases req.status with _ | n <;> split_ifs <;> rfl
  simp only [hlk]
  apply List.map_congr_left
  intro u _
  unfold userAfterUpdate
  by_cases hid : u.id = id
  · subst hid
    rw [if_pos (beq_iff_eq.mpr rfl), if_pos rfl]
    rcases req.status with _ | n <;> split_ifs <;>
      simp_all [applyUserUpdates, applyUserField]
  · rw [if_neg (by simpa using hid), if_neg hid]

theorem roleControllerUpdate_roles_eq (id : Nat) (req : UpdateRoleReq) (db : DBState) :
    (roleControllerUpdate id req db).roles = db.roles.map (roleAfterUpdate id req) := by
  unfold roleControllerUpdate UpdateRole
  apply List.map_congr_left
  intro r _
  unfold roleAfterUpdate
  by_cases hid : r.id = id
  · subst hid
    rw [if_pos (beq_iff_eq.mpr rfl), if_pos rfl]
    split_ifs <;> simp_all [applyRoleUpdates, applyRoleField]
  · rw [if_neg (by simpa using hid), if_neg hid]

/-- C10.  The user and role PUT handlers add a string field to the partial
update map only when the request value is non-empty.  Consequently the
handlers act row-wise as `userAfterUpdate` / `roleAfterUpdate`; a string
field sent as the empty string (or omitted, which binds to the empty string)
keeps its stored value; and no string field of a user or role — username,
realname, email, name, code, description — can be set to the empty string
through the update endpoints.  The user handler never touches the stored
password. -/
theorem update_handlers_ignore_empty_fields :
    (∀ (id : Nat) (req : UpdateUserReq) (db : DBState),
      (userControllerUpdate id req db).users = db.users.map (userAfterUpdate id req)) ∧
    (∀ (id : Nat) (req : UpdateRoleReq) (db : DBState),
      (roleControllerUpdate id req db).roles = db.roles.map (roleAfterUpdate id req)) ∧
    (∀ (id : Nat) (req : UpdateUserReq) (u : User),
      (req.username = "" → (userAfterUpdate id req u).username = u.username) ∧
      (req.realname = "" → (userAfterUpdate id req u).realname = u.realname) ∧
      (req.email = "" → (userAfterUpdate id req u).email = u.email) ∧
      (userAfterUpdate id req u).password = u.password ∧
      (u.username ≠ "" → (userAfterUpdate id req u).username ≠ "") ∧
      (u.realname ≠ "" → (userAfterUpdate id req u).realname ≠ "") ∧
      (u.email ≠ "" → (userAfterUpdate id req u).email ≠ "")) ∧
    (∀ (id : Nat) (req : UpdateRoleReq) (r : Role),
      (req.name = "" → (roleAfterUpdate id req r).name = r.name) ∧
      (req.code = "" → (roleAfterUpdate id req r).code = r.code) ∧
      (req.description = "" → (roleAfterUpdate id req r).description = r.description) ∧
      (r.name ≠ "" → (roleAfterUpdate id req r).name ≠ "") ∧
      (r.code ≠ "" → (roleAfterUpdate id req r).code ≠ "") ∧
      (r.description ≠ "" → (roleAfterUpdate id req r).description ≠ "")) := by
  refine ⟨userControllerUpdate_users_eq, roleControllerUpdate_roles_eq,
    fun id req u => ?_, fun id req r => ?_⟩
  · unfold userAfterUpdate
    by_cases hid : u.id = id
    · rw [if_pos hid]
      refine ⟨fun h => by simp [h], fun h => by simp [h], fun h => by simp [h], rfl,
        fun h => ?_, fun h => ?_, fun h => ?_⟩ <;>
        · show (if _ ≠ "" then _ else _) ≠ ""
          split_ifs <;> simp_all
    · rw [if_neg hid]
      exact ⟨fun _ => rfl, fun _ => rfl, fun _ => rfl, rfl,
        fun h => h, fun h => h, fun h => h⟩
  · unfold roleAfterUpdate
    by_cases hid : r.id = id
    · rw [if_pos hid]
      refine ⟨fun h => by simp [h], fun h => by simp [h], fun h => by simp [h],
        fun h => ?_, fun h => ?_, fun h => ?_⟩ <;>
        · show (if _ ≠ "" then _ else _) ≠ ""
          split_ifs <;> simp_all
    · rw [if_neg hid]
      exact ⟨fun _ => rfl, fun _ => rfl, fun _ => rfl,
        fun h => h, fun h => h, fun h => h⟩

/-- C10, witness: updating user 1 of `dbP` with empty username/realname and
a new email leaves username and realname as stored, keeps the password, and
the handler output agrees with the characterization. -/
theorem update_handlers_ignore_empty_fields_witness :
    (userControllerUpdate 1 ⟨"", "", "new@example.com", none⟩ dbP).users
        = dbP.users.map (userAfterUpdate 1 ⟨"", "", "new@example.com", none⟩) ∧
    (userAfterUpdate 1 ⟨"", "", "new@example.com", none⟩
        ⟨1, "admin", "$2a$10$admin123", "管理员", "admin@example.com", 1, none⟩).username
      = "admin" ∧
    (userAfterUpdate 1 ⟨"", "", "new@example.com", none⟩
        ⟨1, "admin", "$2a$10$admin123", "管理员", "admin@example.com", 1, none⟩).email
      ≠ "" :=
  ⟨update_handlers_ignore_empty_fields.1 1 ⟨"", "", "new@example.com", none⟩ dbP,
    (update_handlers_ignore_empty_fields.2.2.1 1 ⟨"", "", "new@example.com", none⟩
      ⟨1, "admin", "$2a$10$admin123", "管理员", "admin@example.com", 1, none⟩).1 rfl,
    (update_handlers_ignore_empty_fields.2.2.1 1 ⟨"", "", "new@example.com", none⟩
      ⟨1, "admin", "$2a$10$admin123", "管理员", "admin@example.com", 1, none⟩).2.2.2.2.2.2
      (by decide)⟩

end ReactMng
